import Mathlib

/-!
# Verification of the superlocalmemory vector memory store

A shallow embedding of the `MemoryDB` class (SQLite-backed vector memory
store) of `@plures/superlocalmemory-mcp`, together with theorems settling
the specification claims about it.

Modelling conventions:
* SQLite rows of the `memories` table become a `List MemoryEntry`, kept in
  rowid (insertion) order, which is the order `SELECT * FROM memories`
  returns and which `UPDATE` preserves.
* The persisted `embedding` TEXT column (a JSON array) is modelled as
  `Option (List ℝ)`: `some v` for text that decodes to the vector `v`,
  `none` for corrupt text whose `JSON.parse` throws.  Rows written by
  `store` always decode, hence always carry `some`.
* JavaScript numbers are modelled as exact reals (`ℝ`), so definitions
  touching `Math.sqrt` and real comparisons are noncomputable; concrete
  witnesses evaluate them by `simp`/`norm_num` instead of `decide`.
* `randomUUID()` is modelled by a fresh-id counter `nextId` carried in the
  store state; ids are `Nat`.
* `Date.now()` is passed in explicitly as a `now : Nat` argument.
* Thrown `Error`s become `Except DBError`; the error payloads keep the
  numeric data interpolated into the source's message strings.
* The `category || null` coercion applied by `store` before `INSERT`/
  `UPDATE`, and the `row.category || undefined` coercion applied when a
  row is read back in `vectorSearch`, are both modelled by
  `categoryOrNull` (the empty string is the only falsy string).
-/

namespace SuperLocalMemory

/-- A row of the `memories` table (interface `MemoryEntry` in the source).
`embedding` is the JSON-encoded vector column: `some v` when the text
decodes to `v`, `none` when it is corrupt. -/
structure MemoryEntry where
  id : Nat
  content : String
  embedding : Option (List ℝ)
  tags : List String
  category : Option String
  source : String
  created_at : Nat

/-- Result of `MemoryDB.store` (interface `StoreResult` in the source). -/
structure StoreResult where
  entry : MemoryEntry
  isDuplicate : Bool
  updatedId : Option Nat

/-- One search hit (interface `SearchResult` in the source). -/
structure SearchResult where
  entry : MemoryEntry
  score : ℝ

/-- The persistent state owned by a `MemoryDB` instance: the `memories`
table, the configured embedding dimension, the `capture_count` metadata
row, and the fresh-id supply modelling `randomUUID`. -/
structure MemoryDB where
  records : List MemoryEntry
  dimension : Nat
  captureCount : Nat
  nextId : Nat

/-- The two `Error`s the store can throw, with the numeric data their
message strings interpolate:
* `dimensionMismatch found expected` is `validateDimension`'s
  "Database dimension mismatch: Database contains `found`-dim embeddings,
  but configured provider uses `expected`-dim embeddings…";
* `vectorDimMismatch qlen blen` is `cosineSimilarity`'s
  "Vector dimension mismatch: `qlen` vs `blen`". -/
inductive DBError where
  | dimensionMismatch (found expected : Nat)
  | vectorDimMismatch (qlen blen : Nat)
deriving DecidableEq, Repr

/-- The dot-product loop of `cosineSimilarity`: `Σ a[i] * b[i]`. -/
def dot (a b : List ℝ) : ℝ := (List.zipWith (· * ·) a b).sum

/-- The value `cosineSimilarity` returns once the length guard has
passed: `dot / (Math.sqrt normA * Math.sqrt normB)`, and `0` when the
denominator is exactly zero. -/
noncomputable def rawScore (a b : List ℝ) : ℝ :=
  if Real.sqrt (dot a a) * Real.sqrt (dot b b) = 0 then 0
  else dot a b / (Real.sqrt (dot a a) * Real.sqrt (dot b b))

/-- `MemoryDB.cosineSimilarity`: throws on a length mismatch, otherwise
returns `rawScore`. -/
noncomputable def cosineSimilarity (a b : List ℝ) : Except DBError ℝ :=
  if a.length ≠ b.length then .error (.vectorDimMismatch a.length b.length)
  else .ok (rawScore a b)

/-- The JavaScript `category || null` / `row.category || undefined`
coercion: the empty string is the only falsy string, so it collapses to
"absent". -/
def categoryOrNull (c : Option String) : Option String :=
  match c with
  | none => none
  | some s => if s = "" then none else some s

/-- How `vectorSearch` rebuilds a `MemoryEntry` from a raw row: all
columns verbatim except `category: row.category || undefined`. -/
def readEntry (r : MemoryEntry) : MemoryEntry :=
  { r with category := categoryOrNull r.category }

/-- The row loop of `MemoryDB.vectorSearch`: for each row, skip it with a
warning (`console.warn(…id…)`) if its embedding fails to decode, compute
`cosineSimilarity` (which may throw), and keep the row when
`score >= minScore`.  Returns the kept hits in row order together with
the warned ids. -/
noncomputable def scanRows (q : List ℝ) (minScore : ℝ) :
    List MemoryEntry → Except DBError (List SearchResult × List Nat)
  | [] => .ok ([], [])
  | r :: rest =>
    match r.embedding with
    | none =>
      match scanRows q minScore rest with
      | .error e => .error e
      | .ok (res, warns) => .ok (res, r.id :: warns)
    | some emb =>
      match cosineSimilarity q emb with
      | .error e => .error e
      | .ok score =>
        match scanRows q minScore rest with
        | .error e => .error e
        | .ok (res, warns) =>
          if minScore ≤ score then .ok (⟨readEntry r, score⟩ :: res, warns)
          else .ok (res, warns)

/-- Insertion step of the score-descending sort modelling
`results.sort((a, b) => b.score - a.score)` (a stable sort in
ECMAScript): an element moves left past strictly smaller scores only. -/
noncomputable def insertByScore (x : SearchResult) : List SearchResult → List SearchResult
  | [] => [x]
  | y :: ys => if y.score < x.score then x :: y :: ys else y :: insertByScore x ys

/-- Stable sort of search results by descending score. -/
noncomputable def sortByScore : List SearchResult → List SearchResult
  | [] => []
  | x :: xs => insertByScore x (sortByScore xs)

/-- `MemoryDB.vectorSearch`: scan all rows, sort the hits by descending
score, and truncate to `limit` (`results.slice(0, limit)`). -/
noncomputable def vectorSearch (db : MemoryDB) (q : List ℝ) (limit : Nat) (minScore : ℝ) :
    Except DBError (List SearchResult × List Nat) :=
  match scanRows q minScore db.records with
  | .error e => .error e
  | .ok (res, warns) => .ok ((sortByScore res).take limit, warns)

/-- `MemoryDB.findSimilar`: top-1 `vectorSearch` at `minScore =
threshold`; `results[0].entry` when non-empty, else `null`. -/
noncomputable def findSimilar (db : MemoryDB) (embedding : List ℝ) (threshold : ℝ) :
    Except DBError (Option MemoryEntry) :=
  match vectorSearch db embedding 1 threshold with
  | .error e => .error e
  | .ok (results, _) => .ok (results.head?.map (·.entry))

/-- `MemoryDB.store`: dedup search first; on a match, `UPDATE` the
matched row in place (its `category` column receiving `category || null`)
and echo an entry carrying the raw `category`; otherwise `INSERT` a fresh
row (again with `category || null`) under a fresh id and echo the raw
`category`. -/
noncomputable def store (db : MemoryDB) (content : String) (embedding : List ℝ)
    (tags : List String) (category : Option String) (source : String)
    (dedupeThreshold : ℝ) (now : Nat) : Except DBError (StoreResult × MemoryDB) :=
  match findSimilar db embedding dedupeThreshold with
  | .error e => .error e
  | .ok (some existing) =>
    let updatedRow : MemoryEntry :=
      { id := existing.id, content := content, embedding := some embedding, tags := tags,
        category := categoryOrNull category, source := source, created_at := now }
    let echoed : MemoryEntry :=
      { id := existing.id, content := content, embedding := some embedding, tags := tags,
        category := category, source := source, created_at := now }
    let res : StoreResult :=
      { entry := echoed, isDuplicate := true, updatedId := some existing.id }
    let db' : MemoryDB :=
      { db with records := db.records.map fun r => if r.id = existing.id then updatedRow else r }
    .ok (res, db')
  | .ok none =>
    let newRow : MemoryEntry :=
      { id := db.nextId, content := content, embedding := some embedding, tags := tags,
        category := categoryOrNull category, source := source, created_at := now }
    let res : StoreResult :=
      { entry := { newRow with category := category }, isDuplicate := false, updatedId := none }
    let db' : MemoryDB :=
      { db with records := db.records ++ [newRow], nextId := db.nextId + 1 }
    .ok (res, db')

/-- `MemoryDB.delete`: `DELETE FROM memories WHERE id = ?`; a no-op when
the id is absent. -/
def delete (db : MemoryDB) (id : Nat) : MemoryDB :=
  { db with records := db.records.filter fun r => r.id ≠ id }

/-- `MemoryDB.deleteByQuery`: top-100 search at `minScore = threshold`,
then delete each match by id, counting one deletion per match. -/
noncomputable def deleteByQuery (db : MemoryDB) (q : List ℝ) (threshold : ℝ) :
    Except DBError (Nat × MemoryDB) :=
  match vectorSearch db q 100 threshold with
  | .error e => .error e
  | .ok (hits, _) =>
    .ok (hits.length, hits.foldl (fun d m => delete d m.entry.id) db)

/-- Return type of `MemoryDB.stats`. -/
structure StatsResult where
  totalMemories : Nat
  captureCount : Nat
  dimension : Nat

/-- `MemoryDB.stats`: a point-in-time read with no side effects. -/
def stats (db : MemoryDB) : StatsResult :=
  { totalMemories := db.records.length, captureCount := db.captureCount,
    dimension := db.dimension }

/-- `MemoryDB.incrementCaptureCount`. -/
def incrementCaptureCount (db : MemoryDB) : MemoryDB :=
  { db with captureCount := db.captureCount + 1 }

/-- `MemoryDB.validateDimension`: inspect the single row returned by
`SELECT embedding FROM memories LIMIT 1` (if any); throw when it decodes
to a length other than the configured dimension; swallow JSON parse
errors (corrupt first row). -/
def validateDimension (records : List MemoryEntry) (dimension : Nat) : Except DBError Unit :=
  match records.head? with
  | none => .ok ()
  | some r =>
    match r.embedding with
    | none => .ok ()
    | some e =>
      if e.length ≠ dimension then .error (.dimensionMismatch e.length dimension)
      else .ok ()

/-- The `MemoryDB` constructor: open the dataset at a path (its persisted
rows, `capture_count`, and a fresh-id supply) with a configured
dimension, running `validateDimension` before any operation is
possible.  On `.error` no `MemoryDB` value exists, so no store / search /
delete can be invoked on the dataset. -/
def openDB (records : List MemoryEntry) (dimension captureCount nextId : Nat) :
    Except DBError MemoryDB :=
  match validateDimension records dimension with
  | .error e => .error e
  | .ok _ => .ok { records := records, dimension := dimension,
                   captureCount := captureCount, nextId := nextId }

/-- Invariant I1: every persisted record whose embedding column decodes
has the store's configured dimension. -/
def DimOk (db : MemoryDB) : Prop :=
  ∀ r ∈ db.records, ∀ e, r.embedding = some e → e.length = db.dimension

/-- Whether a row is an above-threshold hit for query `q`: its embedding
decodes and scores at least `t`. -/
noncomputable def matchesB (q : List ℝ) (t : ℝ) (r : MemoryEntry) : Bool :=
  match r.embedding with
  | none => false
  | some e => decide (t ≤ rawScore q e)

/-- The per-row outcome of the `vectorSearch` loop, as an `Option`:
`none` when the row is skipped (corrupt) or filtered (below `minScore`),
`some hit` when it is kept. -/
noncomputable def toResult (q : List ℝ) (m : ℝ) (r : MemoryEntry) : Option SearchResult :=
  match r.embedding with
  | none => none
  | some e => if m ≤ rawScore q e then some ⟨readEntry r, rawScore q e⟩ else none

/-! ## Arithmetic facts about the dot product and the cosine score -/

lemma dot_nil_left (b : List ℝ) : dot [] b = 0 := rfl

lemma dot_nil_right (a : List ℝ) : dot a [] = 0 := by
  cases a <;> rfl

lemma dot_cons (x y : ℝ) (a b : List ℝ) : dot (x :: a) (y :: b) = x * y + dot a b := by
  simp [dot]

lemma dot_self_nonneg (a : List ℝ) : 0 ≤ dot a a := by
  induction a with
  | nil => simp [dot]
  | cons x xs ih => rw [dot_cons]; nlinarith [mul_self_nonneg x]

/-- The inductive step of Cauchy–Schwarz for lists. -/
lemma cs_step (x y d A B : ℝ) (hd : d ^ 2 ≤ A * B) (hA : 0 ≤ A) (hB : 0 ≤ B) :
    (x * y + d) ^ 2 ≤ (x * x + A) * (y * y + B) := by
  rcases eq_or_lt_of_le hA with h | h
  · have : d = 0 := by nlinarith [sq_nonneg d]
    subst this
    nlinarith [sq_nonneg (x * y), mul_nonneg (mul_self_nonneg x) hB,
      mul_nonneg (mul_self_nonneg y) hA]
  · nlinarith [sq_nonneg (x * d - A * y), mul_le_mul_of_nonneg_left hd (le_of_lt h),
      mul_nonneg (mul_self_nonneg x) (sub_nonneg.2 hd), sq_nonneg (x * y - d)]

/-- Cauchy–Schwarz for the truncating list dot product. -/
lemma dot_sq_le (a b : List ℝ) : dot a b ^ 2 ≤ dot a a * dot b b := by
  induction a generalizing b with
  | nil => simp [dot_nil_left, dot]
  | cons x xs ih =>
    cases b with
    | nil => simp [dot_nil_right, dot]
    | cons y ys =>
      rw [dot_cons, dot_cons, dot_cons]
      exact cs_step x y (dot xs ys) (dot xs xs) (dot ys ys) (ih ys)
        (dot_self_nonneg xs) (dot_self_nonneg ys)

lemma abs_dot_le (a b : List ℝ) :
    |dot a b| ≤ Real.sqrt (dot a a) * Real.sqrt (dot b b) := by
  calc |dot a b| = Real.sqrt (dot a b ^ 2) := (Real.sqrt_sq_eq_abs _).symm
    _ ≤ Real.sqrt (dot a a * dot b b) := Real.sqrt_le_sqrt (dot_sq_le a b)
    _ = Real.sqrt (dot a a) * Real.sqrt (dot b b) := Real.sqrt_mul (dot_self_nonneg a) _

lemma rawScore_bounds (a b : List ℝ) : -1 ≤ rawScore a b ∧ rawScore a b ≤ 1 := by
  unfold rawScore
  by_cases h : Real.sqrt (dot a a) * Real.sqrt (dot b b) = 0
  · simp [h]
  · have hpos : 0 < Real.sqrt (dot a a) * Real.sqrt (dot b b) :=
      lt_of_le_of_ne (mul_nonneg (Real.sqrt_nonneg _) (Real.sqrt_nonneg _)) (Ne.symm h)
    have habs : |dot a b / (Real.sqrt (dot a a) * Real.sqrt (dot b b))| ≤ 1 := by
      rw [abs_div, abs_of_pos hpos]
      exact (div_le_one hpos).2 (abs_dot_le a b)
    simpa [h] using abs_le.1 habs

/-- A zero-norm vector on the right yields score exactly `0`. -/
lemma rawScore_zero_right (a b : List ℝ) (h : dot b b = 0) : rawScore a b = 0 := by
  simp [rawScore, h, Real.sqrt_zero]

/-- A zero-norm vector on the left yields score exactly `0`. -/
lemma rawScore_zero_left (a b : List ℝ) (h : dot a a = 0) : rawScore a b = 0 := by
  simp [rawScore, h, Real.sqrt_zero]

/-- Self-similarity is exactly `1` as soon as the vector has a non-zero
norm. -/
lemma rawScore_self (a : List ℝ) (h : dot a a ≠ 0) : rawScore a a = 1 := by
  have hsq : Real.sqrt (dot a a) * Real.sqrt (dot a a) = dot a a :=
    Real.mul_self_sqrt (dot_self_nonneg a)
  rw [rawScore, hsq, if_neg h, div_self h]

lemma cosineSimilarity_eq_ok (a b : List ℝ) (h : a.length = b.length) :
    cosineSimilarity a b = .ok (rawScore a b) := by
  simp [cosineSimilarity, h]

/-- C5.  For every pair of equal-length vectors the similarity returned by
`cosineSimilarity` lies in `[-1, 1]`, and a zero-norm vector on either
side yields the score exactly `0` (the zero-denominator branch, not a
division error). -/
theorem cosineSimilarity_bounds_and_zero :
    (∀ (a b : List ℝ) (s : ℝ), a.length = b.length → cosineSimilarity a b = .ok s →
      -1 ≤ s ∧ s ≤ 1) ∧
    (∀ a b : List ℝ, a.length = b.length → dot b b = 0 → cosineSimilarity a b = .ok 0) ∧
    (∀ a b : List ℝ, a.length = b.length → dot a a = 0 → cosineSimilarity a b = .ok 0) := by
  refine ⟨?_, ?_, ?_⟩
  · intro a b s hlen hok
    rw [cosineSimilarity_eq_ok a b hlen] at hok
    cases hok
    exact rawScore_bounds a b
  · intro a b hlen h
    rw [cosineSimilarity_eq_ok a b hlen, rawScore_zero_right a b h]
  · intro a b hlen h
    rw [cosineSimilarity_eq_ok a b hlen, rawScore_zero_left a b h]

lemma dot_34 : dot [(3 : ℝ), 4] [(3 : ℝ), 4] = 25 := by
  norm_num [dot]

lemma cos_34_self : cosineSimilarity [(3 : ℝ), 4] [(3 : ℝ), 4] = .ok 1 := by
  rw [cosineSimilarity_eq_ok _ _ rfl, rawScore_self]
  rw [dot_34]; norm_num

/-- Witness for C5 at concrete inputs: `[3,4]` against itself scores `1`
(inside the bounds), and the zero vector on either side scores `0`. -/
theorem cosineSimilarity_bounds_and_zero_witness :
    ((-1 : ℝ) ≤ 1 ∧ (1 : ℝ) ≤ 1) ∧
    cosineSimilarity [(1 : ℝ), 2] [0, 0] = .ok 0 ∧
    cosineSimilarity [(0 : ℝ), 0] [1, 2] = .ok 0 :=
  ⟨cosineSimilarity_bounds_and_zero.1 [3, 4] [3, 4] 1 rfl cos_34_self,
   cosineSimilarity_bounds_and_zero.2.1 [1, 2] [0, 0] rfl (by norm_num [dot]),
   cosineSimilarity_bounds_and_zero.2.2 [0, 0] [1, 2] rfl (by norm_num [dot])⟩

/-! ## The descending stable sort -/

lemma insertByScore_perm (x : SearchResult) (l : List SearchResult) :
    List.Perm (insertByScore x l) (x :: l) := by
  induction l with
  | nil => exact List.Perm.refl _
  | cons y ys ih =>
    rw [insertByScore]
    by_cases h : y.score < x.score
    · rw [if_pos h]
    · rw [if_neg h]
      exact (ih.cons y).trans (List.Perm.swap x y ys)

lemma sortByScore_perm (l : List SearchResult) : List.Perm (sortByScore l) l := by
  induction l with
  | nil => exact List.Perm.refl _
  | cons x xs ih => exact (insertByScore_perm x (sortByScore xs)).trans (ih.cons x)

lemma mem_insertByScore {a x : SearchResult} {l : List SearchResult} :
    a ∈ insertByScore x l ↔ a = x ∨ a ∈ l := by
  rw [(insertByScore_perm x l).mem_iff, List.mem_cons]

lemma insertByScore_pairwise (x : SearchResult) (l : List SearchResult)
    (h : l.Pairwise fun a b => b.score ≤ a.score) :
    (insertByScore x l).Pairwise fun a b => b.score ≤ a.score := by
  induction l with
  | nil => simp [insertByScore]
  | cons y ys ih =>
    rw [List.pairwise_cons] at h
    rw [insertByScore]
    by_cases hxy : y.score < x.score
    · rw [if_pos hxy]
      refine List.Pairwise.cons ?_ (List.Pairwise.cons h.1 h.2)
      intro b hb
      rcases List.mem_cons.1 hb with rfl | hb
      · exact le_of_lt hxy
      · exact (h.1 b hb).trans (le_of_lt hxy)
    · rw [if_neg hxy]
      refine List.Pairwise.cons ?_ (ih h.2)
      intro b hb
      rcases mem_insertByScore.1 hb with rfl | hb
      · exact not_lt.1 hxy
      · exact h.1 b hb

lemma sortByScore_pairwise (l : List SearchResult) :
    (sortByScore l).Pairwise fun a b => b.score ≤ a.score := by
  induction l with
  | nil => simp [sortByScore]
  | cons x xs ih => exact insertByScore_pairwise x (sortByScore xs) ih

/-- In a sorted result list the head has the maximal score. -/
lemma sorted_head_max {h : SearchResult} {t : List SearchResult}
    (hs : (h :: t).Pairwise fun a b => b.score ≤ a.score) :
    ∀ a ∈ h :: t, a.score ≤ h.score := by
  intro a ha
  rcases List.mem_cons.1 ha with rfl | ha
  · exact le_refl _
  · exact (List.pairwise_cons.1 hs).1 a ha

/-! ## Characterizing the row scan -/

lemma scanRows_nil (q : List ℝ) (m : ℝ) : scanRows q m [] = .ok ([], []) := rfl

/-- When every decodable row has the query's length, the scan succeeds and
produces exactly the per-row outcomes `toResult`, warning exactly on the
rows whose embedding fails to decode. -/
lemma scanRows_ok_of_len (q : List ℝ) (m : ℝ) (rows : List MemoryEntry)
    (h : ∀ r ∈ rows, ∀ e, r.embedding = some e → e.length = q.length) :
    scanRows q m rows =
      .ok (rows.filterMap (toResult q m),
           (rows.filter fun r => r.embedding.isNone).map (·.id)) := by
  induction rows with
  | nil => rfl
  | cons r rest ih =>
    have hrest := ih fun r' hr' => h r' (List.mem_cons_of_mem _ hr')
    cases hemb : r.embedding with
    | none =>
      simp only [scanRows, hemb, hrest]
      simp [toResult, hemb]
    | some emb =>
      have hlen : q.length = emb.length := (h r (List.mem_cons_self r rest) emb hemb).symm
      simp only [scanRows, hemb, cosineSimilarity_eq_ok q emb hlen, hrest]
      by_cases hm : m ≤ rawScore q emb
      · rw [if_pos hm]
        simp [toResult, hemb, hm]
      · rw [if_neg hm]
        simp [toResult, hemb, hm]

/-- A successful scan forces every decodable row to have the query's
length (otherwise `cosineSimilarity` would have thrown). -/
lemma scanRows_len_of_ok {q : List ℝ} {m : ℝ} {rows : List MemoryEntry}
    {p : List SearchResult × List Nat} (h : scanRows q m rows = .ok p) :
    ∀ r ∈ rows, ∀ e, r.embedding = some e → e.length = q.length := by
  induction rows generalizing p with
  | nil => intro r hr; exact absurd hr (List.not_mem_nil r)
  | cons r rest ih =>
    intro r' hr' e he
    cases hemb : r.embedding with
    | none =>
      simp only [scanRows, hemb] at h
      cases hrest : scanRows q m rest with
      | error err => rw [hrest] at h; simp at h
      | ok p' =>
        obtain ⟨res', warns'⟩ := p'
        rw [hrest] at h
        rcases List.mem_cons.1 hr' with rfl | hr'
        · rw [hemb] at he; exact absurd he (by simp)
        · exact ih hrest r' hr' e he
    | some emb =>
      simp only [scanRows, hemb] at h
      by_cases hlen : q.length = emb.length
      · rw [cosineSimilarity_eq_ok q emb hlen] at h
        simp only [] at h
        cases hrest : scanRows q m rest with
        | error err => rw [hrest] at h; simp at h
        | ok p' =>
          obtain ⟨res', warns'⟩ := p'
          rw [hrest] at h
          rcases List.mem_cons.1 hr' with rfl | hr'
          · rw [hemb] at he; cases he; exact hlen.symm
          · exact ih hrest r' hr' e he
      · rw [show cosineSimilarity q emb = .error (.vectorDimMismatch q.length emb.length)
            from by simp [cosineSimilarity, hlen]] at h
        simp at h

/-- Inverting a successful `vectorSearch`. -/
lemma vectorSearch_ok_inv {db : MemoryDB} {q : List ℝ} {limit : Nat} {m : ℝ}
    {res : List SearchResult} {warns : List Nat}
    (h : vectorSearch db q limit m = .ok (res, warns)) :
    scanRows q m db.records =
      .ok (db.records.filterMap (toResult q m),
           (db.records.filter fun r => r.embedding.isNone).map (·.id)) ∧
    res = (sortByScore (db.records.filterMap (toResult q m))).take limit ∧
    warns = (db.records.filter fun r => r.embedding.isNone).map (·.id) := by
  have hp : ∃ p, scanRows q m db.records = .ok p := by
    rw [vectorSearch] at h
    cases hs : scanRows q m db.records with
    | error e => rw [hs] at h; simp at h
    | ok p => exact ⟨p, rfl⟩
  obtain ⟨p, hp⟩ := hp
  have hlen := scanRows_len_of_ok hp
  have hcanon := scanRows_ok_of_len q m db.records hlen
  refine ⟨hcanon, ?_⟩
  simp only [vectorSearch, hcanon] at h
  simp only [Except.ok.injEq, Prod.mk.injEq] at h
  exact ⟨h.1.symm, h.2.symm⟩

lemma toResult_some {q : List ℝ} {m : ℝ} {r : MemoryEntry} {s : SearchResult}
    (h : toResult q m r = some s) :
    m ≤ s.score ∧ ∃ e, r.embedding = some e ∧ s = ⟨readEntry r, rawScore q e⟩ := by
  cases hemb : r.embedding with
  | none => simp [toResult, hemb] at h
  | some e =>
    simp only [toResult, hemb] at h
    by_cases hm : m ≤ rawScore q e
    · rw [if_pos hm] at h
      cases h
      exact ⟨hm, e, rfl, rfl⟩
    · rw [if_neg hm] at h
      exact absurd h (by simp)

/-- C4.  Ranking correctness: whenever `vectorSearch` returns, its result
list is non-increasing in score, every returned score is at least the
requested `minScore`, and at most `limit` results are returned. -/
theorem vectorSearch_ranking {db : MemoryDB} {q : List ℝ} {limit : Nat} {m : ℝ}
    {res : List SearchResult} {warns : List Nat}
    (h : vectorSearch db q limit m = .ok (res, warns)) :
    res.Pairwise (fun a b => b.score ≤ a.score) ∧
    (∀ s ∈ res, m ≤ s.score) ∧
    res.length ≤ limit := by
  obtain ⟨hscan, hres, hwarns⟩ := vectorSearch_ok_inv h
  subst hres
  refine ⟨?_, ?_, ?_⟩
  · exact List.Pairwise.sublist (List.take_sublist _ _) (sortByScore_pairwise _)
  · intro s hs
    have hs' : s ∈ sortByScore (db.records.filterMap (toResult q m)) :=
      List.take_subset _ _ hs
    have hs'' : s ∈ db.records.filterMap (toResult q m) :=
      (sortByScore_perm _).mem_iff.1 hs'
    obtain ⟨r, hr, hsome⟩ := List.mem_filterMap.1 hs''
    exact (toResult_some hsome).1
  · rw [List.length_take]
    exact min_le_left _ _

/-- Witness for C4: a one-record store searched with its own embedding at
`limit = 5`, `minScore = 0.3` returns that single record with score `1`,
and the ranking properties hold of the returned list. -/
theorem vectorSearch_ranking_witness :
    ([⟨⟨0, "a", some [3, 4], [], none, "", 0⟩, 1⟩] : List SearchResult).Pairwise
      (fun a b => b.score ≤ a.score) ∧
    (∀ s ∈ ([⟨⟨0, "a", some [3, 4], [], none, "", 0⟩, 1⟩] : List SearchResult),
      (3 / 10 : ℝ) ≤ s.score) ∧
    ([⟨⟨0, "a", some [3, 4], [], none, "", 0⟩, 1⟩] : List SearchResult).length ≤ 5 := by
  have hco : rawScore [(3 : ℝ), 4] [(3 : ℝ), 4] = 1 :=
    rawScore_self _ (by rw [dot_34]; norm_num)
  have hscan := scanRows_ok_of_len [(3 : ℝ), 4] (3 / 10)
    [⟨0, "a", some [3, 4], [], none, "", 0⟩]
    (by intro r hr e he; simp at hr; subst hr; simp at he; subst he; rfl)
  have hres : List.filterMap (toResult [(3 : ℝ), 4] (3 / 10))
      [⟨0, "a", some [3, 4], [], none, "", 0⟩] =
      [⟨⟨0, "a", some [3, 4], [], none, "", 0⟩, 1⟩] := by
    simp only [List.filterMap_cons, List.filterMap_nil, toResult, hco]
    rw [if_pos (by norm_num : (3 / 10 : ℝ) ≤ 1)]
    simp [readEntry, categoryOrNull]
  have hsearch : vectorSearch ⟨[⟨0, "a", some [3, 4], [], none, "", 0⟩], 2, 0, 1⟩
      [(3 : ℝ), 4] 5 (3 / 10) = .ok ([⟨⟨0, "a", some [3, 4], [], none, "", 0⟩, 1⟩], []) := by
    simp only [vectorSearch, hscan, hres]
    simp [sortByScore, insertByScore]
  exact vectorSearch_ranking hsearch

/-! ## C3: open-time dimension validation -/

/-- C3, counterexample.  `validateDimension` inspects only the single row
returned by `SELECT … LIMIT 1`: a dataset whose first record has the
configured length but whose second does not is admitted — `openDB`
succeeds although a persisted record's embedding length differs from the
configured dimension, refuting the claim that such a dataset must fail to
open. -/
theorem openDB_admits_mixed_dataset :
    openDB [⟨0, "a", some [1, 2], [], none, "", 0⟩,
            ⟨1, "b", some [1, 2, 3], [], none, "", 0⟩] 2 0 2 =
      .ok ⟨[⟨0, "a", some [1, 2], [], none, "", 0⟩,
            ⟨1, "b", some [1, 2, 3], [], none, "", 0⟩], 2, 0, 2⟩ ∧
    ¬ DimOk ⟨[⟨0, "a", some [1, 2], [], none, "", 0⟩,
              ⟨1, "b", some [1, 2, 3], [], none, "", 0⟩], 2, 0, 2⟩ := by
  constructor
  · rfl
  · intro h
    have := h ⟨1, "b", some [1, 2, 3], [], none, "", 0⟩ (by simp) [1, 2, 3] rfl
    simp at this

/-- C3, amended.  Open-time validation checks exactly the first persisted
record, and its outcome depends on nothing else: `openDB` fails — with an
error naming the found and the configured dimensions, before any
operation is possible (no `MemoryDB` value exists) — precisely when that
first record's embedding decodes to a length other than the configured
dimension; whenever the first record (if any) either fails to decode or
decodes to the configured length, `openDB` succeeds, regardless of the
remaining records — in particular over a mismatched tail (see the
counterexample), and for the empty dataset. -/
theorem openDB_first_row_check (records : List MemoryEntry)
    (dimension captureCount nextId : Nat) :
    (∀ r e, records.head? = some r → r.embedding = some e → e.length ≠ dimension →
      openDB records dimension captureCount nextId =
        .error (.dimensionMismatch e.length dimension)) ∧
    ((∀ r e, records.head? = some r → r.embedding = some e → e.length = dimension) →
      openDB records dimension captureCount nextId =
        .ok ⟨records, dimension, captureCount, nextId⟩) := by
  constructor
  · intro r e hhead hemb hne
    cases records with
    | nil => exact absurd hhead (by simp)
    | cons r0 rest =>
      have : r0 = r := by simpa using hhead
      subst this
      simp only [openDB, validateDimension, List.head?, hemb, if_pos hne]
  · intro h
    cases records with
    | nil => rfl
    | cons r0 rest =>
      cases hemb : r0.embedding with
      | none => simp only [openDB, validateDimension, List.head?, hemb]
      | some e =>
        have he : e.length = dimension := h r0 e rfl hemb
        simp only [openDB, validateDimension, List.head?, hemb,
          if_neg (by simp [he] : ¬ e.length ≠ dimension)]

/-- Witness for C3 (amended): a one-record 3-dim dataset opened at
configured dimension 2 fails naming 3 and 2; a dataset whose first row
is corrupt opens over a mismatched (3-dim) tail at configured dimension
2; a dataset whose first row is 2-dim opens over a mismatched tail; and
the empty dataset opens. -/
theorem openDB_first_row_check_witness :
    openDB [⟨0, "a", some [1, 2, 3], [], none, "", 0⟩] 2 0 1 =
      .error (.dimensionMismatch 3 2) ∧
    openDB [⟨0, "a", none, [], none, "", 0⟩,
            ⟨1, "b", some [1, 2, 3], [], none, "", 0⟩] 2 0 2 =
      .ok ⟨[⟨0, "a", none, [], none, "", 0⟩,
            ⟨1, "b", some [1, 2, 3], [], none, "", 0⟩], 2, 0, 2⟩ ∧
    openDB [⟨0, "a", some [1, 2], [], none, "", 0⟩,
            ⟨1, "b", some [1, 2, 3, 4], [], none, "", 0⟩] 2 0 2 =
      .ok ⟨[⟨0, "a", some [1, 2], [], none, "", 0⟩,
            ⟨1, "b", some [1, 2, 3, 4], [], none, "", 0⟩], 2, 0, 2⟩ ∧
    openDB [] 5 0 0 = .ok ⟨[], 5, 0, 0⟩ :=
  ⟨(openDB_first_row_check _ 2 0 1).1 ⟨0, "a", some [1, 2, 3], [], none, "", 0⟩
      [1, 2, 3] rfl rfl (by norm_num),
   (openDB_first_row_check _ 2 0 2).2
      (by intro r e hr he; simp at hr; subst hr; simp at he),
   (openDB_first_row_check _ 2 0 2).2
      (by intro r e hr he; simp at hr; subst hr; simp at he; subst he; rfl),
   (openDB_first_row_check _ 5 0 0).2 (by simp)⟩

/-! ## Unfolding `store` by the outcome of the dedup search -/

lemma store_eq_err {db : MemoryDB} {e : List ℝ} {t : ℝ} {er : DBError}
    (hf : findSimilar db e t = .error er) (c : String) (tags : List String)
    (cat : Option String) (src : String) (now : Nat) :
    store db c e tags cat src t now = .error er := by
  simp only [store, hf]

lemma store_eq_update {db : MemoryDB} {e : List ℝ} {t : ℝ} {ex : MemoryEntry}
    (hf : findSimilar db e t = .ok (some ex)) (c : String) (tags : List String)
    (cat : Option String) (src : String) (now : Nat) :
    store db c e tags cat src t now =
      .ok (⟨⟨ex.id, c, some e, tags, cat, src, now⟩, true, some ex.id⟩,
           { db with records := db.records.map fun r =>
               if r.id = ex.id then ⟨ex.id, c, some e, tags, categoryOrNull cat, src, now⟩
               else r }) := by
  simp only [store, hf]

lemma store_eq_insert {db : MemoryDB} {e : List ℝ} {t : ℝ}
    (hf : findSimilar db e t = .ok none) (c : String) (tags : List String)
    (cat : Option String) (src : String) (now : Nat) :
    store db c e tags cat src t now =
      .ok (⟨⟨db.nextId, c, some e, tags, cat, src, now⟩, false, none⟩,
           { db with
              records := db.records ++ [⟨db.nextId, c, some e, tags, categoryOrNull cat,
                src, now⟩],
              nextId := db.nextId + 1 }) := by
  simp only [store, hf]

/-! ## C2: a store call with a mismatched embedding length -/

/-- In a dataset whose decodable embeddings all have length `D`, scanning
with a query of a different length throws `cosineSimilarity`'s
vector-dimension-mismatch error as soon as one decodable row exists. -/
lemma scanRows_error_of_mismatch {q : List ℝ} {m : ℝ} {rows : List MemoryEntry} {D : Nat}
    (hD : ∀ r ∈ rows, ∀ e, r.embedding = some e → e.length = D)
    (hne : q.length ≠ D) (hex : ∃ r ∈ rows, r.embedding.isSome) :
    scanRows q m rows = .error (.vectorDimMismatch q.length D) := by
  induction rows with
  | nil => obtain ⟨r, hr, _⟩ := hex; exact absurd hr (List.not_mem_nil r)
  | cons r rest ih =>
    cases hemb : r.embedding with
    | some emb =>
      have hlen : emb.length = D := hD r (List.mem_cons_self _ _) emb hemb
      have hne' : q.length ≠ emb.length := by rw [hlen]; exact hne
      have hcos : cosineSimilarity q emb = .error (.vectorDimMismatch q.length emb.length) := by
        rw [cosineSimilarity, if_pos hne']
      simp only [scanRows, hemb, hcos, hlen]
    | none =>
      have hex' : ∃ r' ∈ rest, r'.embedding.isSome := by
        obtain ⟨r', hr', hsome⟩ := hex
        rcases List.mem_cons.1 hr' with rfl | hr'
        · rw [hemb] at hsome; exact absurd hsome (by simp)
        · exact ⟨r', hr', hsome⟩
      have hrest := ih (fun r' hr' => hD r' (List.mem_cons_of_mem _ hr')) hex'
      simp only [scanRows, hemb, hrest]

/-- C2, counterexample.  On an empty dataset (configured dimension 3) a
store call with a 1-dimensional embedding does not fail: it silently
inserts the mismatched record, refuting "fails … including on an empty
dataset". -/
theorem store_wrong_dim_silent_insert :
    store ⟨[], 3, 0, 0⟩ "x" [1] [] none "" (95 / 100) 0 =
      .ok (⟨⟨0, "x", some [1], [], none, "", 0⟩, false, none⟩,
           ⟨[⟨0, "x", some [1], [], none, "", 0⟩], 3, 0, 1⟩) ∧
    (⟨[⟨0, "x", some [1], [], none, "", 0⟩], 3, 0, 1⟩ : MemoryDB).records.length = 1 :=
  ⟨rfl, rfl⟩

/-- C2, amended.  A store call whose embedding length differs from the
configured dimension fails with the vector-dimension-mismatch error
(naming the two lengths) before any insert or update — but only because
the dedup scan compares against some persisted decodable embedding; the
hypothesis that one exists is necessary (see the counterexample for the
empty dataset).  On `.error` no state is produced, so nothing is inserted
or modified. -/
theorem store_wrong_dim_fails {db : MemoryDB} (c : String) {e : List ℝ}
    (tags : List String) (cat : Option String) (src : String) (t : ℝ) (now : Nat)
    (hdim : DimOk db) (hne : e.length ≠ db.dimension)
    (hex : ∃ r ∈ db.records, r.embedding.isSome) :
    store db c e tags cat src t now =
      .error (.vectorDimMismatch e.length db.dimension) := by
  have hscan := scanRows_error_of_mismatch (m := t) hdim hne hex
  have hf : findSimilar db e t = .error (.vectorDimMismatch e.length db.dimension) := by
    simp only [findSimilar, vectorSearch, hscan]
  exact store_eq_err hf c tags cat src now

/-- Witness for C2 (amended): storing a 1-dim embedding into a 2-dim
dataset holding one decodable record fails with the mismatch error. -/
theorem store_wrong_dim_fails_witness :
    store ⟨[⟨0, "a", some [1, 2], [], none, "", 0⟩], 2, 0, 1⟩ "x" [1] [] none "" (95 / 100) 7 =
      .error (.vectorDimMismatch 1 2) :=
  store_wrong_dim_fails "x" [] none "" (95 / 100) 7
    (by intro r hr e he; simp at hr; subst hr; simp at he; subst he; rfl)
    (by norm_num)
    ⟨⟨0, "a", some [1, 2], [], none, "", 0⟩, by simp, by simp⟩

/-! ## C1: preservation of the dimension invariant -/

lemma dimOk_delete {db : MemoryDB} (h : DimOk db) (i : Nat) : DimOk (delete db i) := by
  intro r hr e he
  exact h r (List.mem_of_mem_filter hr) e he

lemma dimOk_foldl_delete {db : MemoryDB} (h : DimOk db) (hits : List SearchResult) :
    DimOk (hits.foldl (fun d m => delete d m.entry.id) db) := by
  induction hits generalizing db with
  | nil => exact h
  | cons m rest ih => exact ih (dimOk_delete h m.entry.id)

/-- C1, counterexample.  The empty dataset (vacuously satisfying I1 at
configured dimension 3) admits a store call carrying a 1-dim embedding,
whose resulting state violates I1 — so not every store call preserves the
invariant. -/
theorem store_breaks_dimension_invariant :
    DimOk ⟨[], 3, 0, 0⟩ ∧
    store ⟨[], 3, 0, 0⟩ "x" [1] [] none "" (95 / 100) 0 =
      .ok (⟨⟨0, "x", some [1], [], none, "", 0⟩, false, none⟩,
           ⟨[⟨0, "x", some [1], [], none, "", 0⟩], 3, 0, 1⟩) ∧
    ¬ DimOk ⟨[⟨0, "x", some [1], [], none, "", 0⟩], 3, 0, 1⟩ := by
  refine ⟨?_, rfl, ?_⟩
  · intro r hr e he; exact absurd hr (List.not_mem_nil r)
  · intro h
    have := h ⟨0, "x", some [1], [], none, "", 0⟩ (by simp) [1] rfl
    simp at this

/-- C1, amended.  Every operation preserves I1 provided `store` is only
invoked with embeddings of the configured length: a store call with a
length-`D` embedding (duplicate update or fresh insert), a delete by id,
and a delete by similarity all map a state satisfying I1 to a state
satisfying I1.  (`vectorSearch` and `stats` read the state without
modifying it, so there is nothing to preserve; a store call with a
wrong-length embedding can break I1 on an empty dataset — see the
counterexample.) -/
theorem dimOk_preserved (db : MemoryDB) (h : DimOk db) :
    (∀ c e tags cat src t now res db', e.length = db.dimension →
      store db c e tags cat src t now = .ok (res, db') → DimOk db') ∧
    (∀ i, DimOk (delete db i)) ∧
    (∀ q t n db', deleteByQuery db q t = .ok (n, db') → DimOk db') := by
  refine ⟨?_, fun i => dimOk_delete h i, ?_⟩
  · intro c e tags cat src t now res db' hlen hstore
    cases hf : findSimilar db e t with
    | error er => rw [store_eq_err hf c tags cat src now] at hstore; simp at hstore
    | ok fo =>
      cases fo with
      | some ex =>
        rw [store_eq_update hf c tags cat src now] at hstore
        simp only [Except.ok.injEq, Prod.mk.injEq] at hstore
        obtain ⟨-, rfl⟩ := hstore
        intro r hr e' he'
        simp only [List.mem_map] at hr
        obtain ⟨r₀, hr₀, rfl⟩ := hr
        by_cases hid : r₀.id = ex.id
        · rw [if_pos hid] at he'
          simp only at he'
          cases he'
          exact hlen
        · rw [if_neg hid] at he'
          exact h r₀ hr₀ e' he'
      | none =>
        rw [store_eq_insert hf c tags cat src now] at hstore
        simp only [Except.ok.injEq, Prod.mk.injEq] at hstore
        obtain ⟨-, rfl⟩ := hstore
        intro r hr e' he'
        rcases List.mem_append.1 hr with hr | hr
        · exact h r hr e' he'
        · simp only [List.mem_singleton] at hr
          subst hr
          simp only at he'
          cases he'
          exact hlen
  · intro q t n db' hdel
    rw [deleteByQuery] at hdel
    cases hv : vectorSearch db q 100 t with
    | error er => rw [hv] at hdel; simp at hdel
    | ok p =>
      obtain ⟨hits, warns⟩ := p
      rw [hv] at hdel
      simp only [Except.ok.injEq, Prod.mk.injEq] at hdel
      obtain ⟨-, rfl⟩ := hdel
      exact dimOk_foldl_delete h hits

/-- Witness for C1 (amended), exercising the delete-by-id conjunct on a
concrete one-record 2-dim dataset satisfying I1. -/
theorem dimOk_preserved_witness :
    DimOk (delete ⟨[⟨0, "a", some [1, 2], [], none, "", 0⟩], 2, 0, 1⟩ 0) :=
  (dimOk_preserved ⟨[⟨0, "a", some [1, 2], [], none, "", 0⟩], 2, 0, 1⟩
    (by intro r hr e he; simp at hr; subst hr; simp at he; subst he; rfl)).2.1 0

/-! ## C8: per-record decode robustness -/

lemma filterMap_toResult_filter_isSome (q : List ℝ) (m : ℝ) (rows : List MemoryEntry) :
    (rows.filter fun r => r.embedding.isSome).filterMap (toResult q m) =
      rows.filterMap (toResult q m) := by
  induction rows with
  | nil => rfl
  | cons r rest ih =>
    cases hemb : r.embedding with
    | none => simp [List.filter_cons, List.filterMap_cons, toResult, hemb, ih]
    | some e => simp [List.filter_cons, List.filterMap_cons, toResult, hemb, ih]

lemma filter_isNone_of_filter_isSome (rows : List MemoryEntry) :
    ((rows.filter fun r => r.embedding.isSome).filter fun r => r.embedding.isNone) = [] := by
  induction rows with
  | nil => rfl
  | cons r rest ih =>
    cases hemb : r.embedding with
    | none => simp [List.filter_cons, hemb, ih]
    | some e => simp [List.filter_cons, hemb, ih]

/-- C8.  Over a dataset in which some rows' stored embeddings fail to
decode, a search whose query has the decodable rows' length does not
fail: it succeeds, warning on exactly the undecodable rows, and it
returns exactly the results of the same search over the dataset with the
corrupt rows removed (which also succeeds, with no warnings) — a corrupt
row is skipped per-record, never aborting the whole search. -/
theorem vectorSearch_skips_corrupt (db : MemoryDB) (q : List ℝ) (limit : Nat) (m : ℝ)
    (hlen : ∀ r ∈ db.records, ∀ e, r.embedding = some e → e.length = q.length) :
    vectorSearch db q limit m =
      .ok ((sortByScore (db.records.filterMap (toResult q m))).take limit,
           (db.records.filter fun r => r.embedding.isNone).map (·.id)) ∧
    vectorSearch ⟨db.records.filter fun r => r.embedding.isSome, db.dimension,
        db.captureCount, db.nextId⟩ q limit m =
      .ok ((sortByScore (db.records.filterMap (toResult q m))).take limit, []) := by
  have hscan := scanRows_ok_of_len q m db.records hlen
  have hscan' := scanRows_ok_of_len q m (db.records.filter fun r => r.embedding.isSome)
    fun r hr => hlen r (List.mem_of_mem_filter hr)
  rw [filterMap_toResult_filter_isSome, filter_isNone_of_filter_isSome] at hscan'
  constructor
  · simp only [vectorSearch, hscan]
  · simp only [vectorSearch, hscan', List.map_nil]

/-- Witness for C8: a dataset holding one good record and one corrupt
record; the search succeeds, warns on the corrupt record's id (1), and
returns exactly what the search over the cleaned dataset returns. -/
theorem vectorSearch_skips_corrupt_witness :
    vectorSearch ⟨[⟨0, "a", some [3, 4], [], none, "", 0⟩, ⟨1, "b", none, [], none, "", 0⟩],
        2, 0, 2⟩ [(3 : ℝ), 4] 5 (3 / 10) =
      .ok ((sortByScore (([⟨0, "a", some [3, 4], [], none, "", 0⟩,
             ⟨1, "b", none, [], none, "", 0⟩] : List MemoryEntry).filterMap
               (toResult [(3 : ℝ), 4] (3 / 10)))).take 5, [1]) ∧
    vectorSearch ⟨([⟨0, "a", some [3, 4], [], none, "", 0⟩,
        ⟨1, "b", none, [], none, "", 0⟩] : List MemoryEntry).filter
          (fun r => r.embedding.isSome), 2, 0, 2⟩ [(3 : ℝ), 4] 5 (3 / 10) =
      .ok ((sortByScore (([⟨0, "a", some [3, 4], [], none, "", 0⟩,
             ⟨1, "b", none, [], none, "", 0⟩] : List MemoryEntry).filterMap
               (toResult [(3 : ℝ), 4] (3 / 10)))).take 5, []) :=
  vectorSearch_skips_corrupt
    ⟨[⟨0, "a", some [3, 4], [], none, "", 0⟩, ⟨1, "b", none, [], none, "", 0⟩], 2, 0, 2⟩
    [(3 : ℝ), 4] 5 (3 / 10)
    (by
      intro r hr e he
      simp only [List.mem_cons, List.not_mem_nil, or_false] at hr
      rcases hr with rfl | rfl
      · simp at he; subst he; rfl
      · simp at he)

/-! ## C9: empty-string category versus absent category -/

/-- C9, counterexample.  Two store calls differing only in `category`
(`""` versus absent) produce byte-for-byte identical persisted states:
in both the record's `category` column is NULL (`none`), because `store`
writes `category || null` and the empty string is falsy.  Only the
transient `StoreResult` echo differs.  So the persisted state for an
empty-string category is not distinct from the absent one. -/
theorem category_empty_string_not_distinct :
    store ⟨[], 2, 0, 0⟩ "x" [1, 2] [] (some "") "" (95 / 100) 0 =
      .ok (⟨⟨0, "x", some [1, 2], [], some "", "", 0⟩, false, none⟩,
           ⟨[⟨0, "x", some [1, 2], [], none, "", 0⟩], 2, 0, 1⟩) ∧
    store ⟨[], 2, 0, 0⟩ "x" [1, 2] [] none "" (95 / 100) 0 =
      .ok (⟨⟨0, "x", some [1, 2], [], none, "", 0⟩, false, none⟩,
           ⟨[⟨0, "x", some [1, 2], [], none, "", 0⟩], 2, 0, 1⟩) :=
  ⟨rfl, rfl⟩

/-- C9, amended.  Storing with `category = ""` persists exactly the same
state as storing with `category` absent — both are coerced to NULL by
`category || null` — so no later retrieval (search result, dedup update,
or any other read of the state) can distinguish them; the raw empty
string survives only in the immediate `StoreResult` echo.  (Reads apply
`row.category || undefined`, likewise collapsing `""` to absent.) -/
theorem store_category_empty_eq_absent (db : MemoryDB) (c : String) (e : List ℝ)
    (tags : List String) (src : String) (t : ℝ) (now : Nat) :
    (store db c e tags (some "") src t now).map Prod.snd =
      (store db c e tags none src t now).map Prod.snd := by
  cases hf : findSimilar db e t with
  | error er =>
    rw [store_eq_err hf c tags (some "") src now, store_eq_err hf c tags none src now]
  | ok fo =>
    cases fo with
    | some ex =>
      rw [store_eq_update hf c tags (some "") src now, store_eq_update hf c tags none src now]
      simp [categoryOrNull, Except.map]
    | none =>
      rw [store_eq_insert hf c tags (some "") src now, store_eq_insert hf c tags none src now]
      simp [categoryOrNull, Except.map]

/-! ## C10: dedup overwrites a best-scoring match -/

/-- Inverting a dedup hit: the matched entry is the read-back of a
persisted record whose score reaches the threshold and is maximal among
all decodable persisted records. -/
lemma findSimilar_some_inv {db : MemoryDB} {e : List ℝ} {t : ℝ} {ex : MemoryEntry}
    (h : findSimilar db e t = .ok (some ex)) :
    ∃ r₀ ∈ db.records, ∃ e₀, r₀.embedding = some e₀ ∧ ex = readEntry r₀ ∧
      t ≤ rawScore e e₀ ∧
      ∀ r ∈ db.records, ∀ e', r.embedding = some e' → rawScore e e' ≤ rawScore e e₀ := by
  rw [findSimilar] at h
  cases hv : vectorSearch db e 1 t with
  | error er => rw [hv] at h; simp at h
  | ok p =>
    obtain ⟨results, warns⟩ := p
    rw [hv] at h
    simp only [Except.ok.injEq] at h
    obtain ⟨hscan, hres, -⟩ := vectorSearch_ok_inv hv
    have hpair := sortByScore_pairwise (db.records.filterMap (toResult e t))
    cases hsort : sortByScore (db.records.filterMap (toResult e t)) with
    | nil => rw [hsort] at hres; subst hres; simp at h
    | cons s0 rest =>
      rw [hsort] at hres
      subst hres
      simp only [List.take_succ_cons, List.take_zero, List.head?, Option.map_some] at h
      have hex : s0.entry = ex := by simpa using h
      have hs0mem : s0 ∈ db.records.filterMap (toResult e t) :=
        (sortByScore_perm _).mem_iff.1 (hsort ▸ List.mem_cons_self s0 rest)
      obtain ⟨r₀, hr₀, hsome⟩ := List.mem_filterMap.1 hs0mem
      obtain ⟨hsc, e₀, hemb, hs0⟩ := toResult_some hsome
      refine ⟨r₀, hr₀, e₀, hemb, ?_, ?_, ?_⟩
      · rw [← hex, hs0]
      · rw [hs0] at hsc; exact hsc
      · intro r hr e' he'
        have hscore0 : s0.score = rawScore e e₀ := by rw [hs0]
        by_cases hm : t ≤ rawScore e e'
        · have : toResult e t r = some ⟨readEntry r, rawScore e e'⟩ := by
            simp [toResult, he', hm]
          have hmem : (⟨readEntry r, rawScore e e'⟩ : SearchResult) ∈
              db.records.filterMap (toResult e t) :=
            List.mem_filterMap.2 ⟨r, hr, this⟩
          have hmem' : (⟨readEntry r, rawScore e e'⟩ : SearchResult) ∈ s0 :: rest := by
            rw [← hsort]
            exact ((sortByScore_perm _).mem_iff).2 hmem
          have := sorted_head_max (hsort ▸ hpair) _ hmem'
          rw [hscore0] at this
          exact this
        · exact le_trans (le_of_lt (not_le.1 hm)) (hscore0 ▸ hsc)

/-- C10.  When a store call reports a duplicate, the record it overwrote
(and whose id it reports as `updatedId`) is one whose similarity to the
new embedding reaches the threshold and is maximal among all decodable
persisted records — `findSimilar` is the head of the score-descending
sort, never an arbitrary above-threshold record. -/
theorem store_dedup_best_match {db : MemoryDB} {c : String} {e : List ℝ}
    {tags : List String} {cat : Option String} {src : String} {t : ℝ} {now : Nat}
    {res : StoreResult} {db' : MemoryDB}
    (h : store db c e tags cat src t now = .ok (res, db'))
    (hdup : res.isDuplicate = true) :
    ∃ r₀ ∈ db.records, ∃ e₀, r₀.embedding = some e₀ ∧
      res.updatedId = some r₀.id ∧ t ≤ rawScore e e₀ ∧
      ∀ r ∈ db.records, ∀ e', r.embedding = some e' → rawScore e e' ≤ rawScore e e₀ := by
  cases hf : findSimilar db e t with
  | error er => rw [store_eq_err hf c tags cat src now] at h; simp at h
  | ok fo =>
    cases fo with
    | none =>
      rw [store_eq_insert hf c tags cat src now] at h
      simp only [Except.ok.injEq, Prod.mk.injEq] at h
      rw [← h.1] at hdup
      simp at hdup
    | some ex =>
      rw [store_eq_update hf c tags cat src now] at h
      simp only [Except.ok.injEq, Prod.mk.injEq] at h
      obtain ⟨r₀, hr₀, e₀, hemb, hexeq, hsc, hmax⟩ := findSimilar_some_inv hf
      refine ⟨r₀, hr₀, e₀, hemb, ?_, hsc, hmax⟩
      rw [← h.1]
      simp only
      rw [hexeq]
      rfl

lemma sqrt_twentyfive : Real.sqrt 25 = 5 := by
  rw [show (25 : ℝ) = 5 ^ 2 by norm_num, Real.sqrt_sq (by norm_num : (0 : ℝ) ≤ 5)]

lemma rawScore_34_43 : rawScore [(3 : ℝ), 4] [(4 : ℝ), 3] = 24 / 25 := by
  rw [rawScore, show dot [(3 : ℝ), 4] [(3 : ℝ), 4] = 25 from by norm_num [dot],
    show dot [(4 : ℝ), 3] [(4 : ℝ), 3] = 25 from by norm_num [dot],
    show dot [(3 : ℝ), 4] [(4 : ℝ), 3] = 24 from by norm_num [dot], sqrt_twentyfive]
  norm_num

/-- Witness for C10: two persisted records score `1` and `24/25` against
the stored embedding at threshold `0.9`; the dedup update targets the
score-`1` record (id 0), the maximal one. -/
theorem store_dedup_best_match_witness :
    ∃ r₀ ∈ ([⟨0, "a", some [3, 4], [], none, "", 0⟩,
             ⟨1, "b", some [4, 3], [], none, "", 0⟩] : List MemoryEntry),
      ∃ e₀, r₀.embedding = some e₀ ∧
        (some 0 : Option Nat) = some r₀.id ∧
        (9 / 10 : ℝ) ≤ rawScore [3, 4] e₀ ∧
        ∀ r ∈ ([⟨0, "a", some [3, 4], [], none, "", 0⟩,
                ⟨1, "b", some [4, 3], [], none, "", 0⟩] : List MemoryEntry),
          ∀ e', r.embedding = some e' → rawScore [3, 4] e' ≤ rawScore [3, 4] e₀ := by
  have hco : rawScore [(3 : ℝ), 4] [(3 : ℝ), 4] = 1 :=
    rawScore_self _ (by rw [dot_34]; norm_num)
  have hscan := scanRows_ok_of_len [(3 : ℝ), 4] (9 / 10)
    [⟨0, "a", some [3, 4], [], none, "", 0⟩, ⟨1, "b", some [4, 3], [], none, "", 0⟩]
    (by
      intro r hr e he
      simp only [List.mem_cons, List.not_mem_nil, or_false] at hr
      rcases hr with rfl | rfl <;> (simp at he; subst he; rfl))
  have hres : List.filterMap (toResult [(3 : ℝ), 4] (9 / 10))
      [⟨0, "a", some [3, 4], [], none, "", 0⟩, ⟨1, "b", some [4, 3], [], none, "", 0⟩] =
      [⟨⟨0, "a", some [3, 4], [], none, "", 0⟩, 1⟩,
       ⟨⟨1, "b", some [4, 3], [], none, "", 0⟩, 24 / 25⟩] := by
    simp only [List.filterMap_cons, List.filterMap_nil, toResult, hco, rawScore_34_43]
    rw [if_pos (by norm_num : (9 / 10 : ℝ) ≤ 1), if_pos (by norm_num : (9 / 10 : ℝ) ≤ 24 / 25)]
    simp [readEntry, categoryOrNull]
  have hsort : sortByScore
      [⟨⟨0, "a", some [3, 4], [], none, "", 0⟩, 1⟩,
       ⟨⟨1, "b", some [4, 3], [], none, "", 0⟩, 24 / 25⟩] =
      [⟨⟨0, "a", some [3, 4], [], none, "", 0⟩, 1⟩,
       ⟨⟨1, "b", some [4, 3], [], none, "", 0⟩, 24 / 25⟩] := by
    norm_num [sortByScore, insertByScore]
  have hsearch : vectorSearch ⟨[⟨0, "a", some [3, 4], [], none, "", 0⟩,
      ⟨1, "b", some [4, 3], [], none, "", 0⟩], 2, 0, 2⟩ [(3 : ℝ), 4] 1 (9 / 10) =
      .ok ([⟨⟨0, "a", some [3, 4], [], none, "", 0⟩, 1⟩], []) := by
    simp only [vectorSearch, hscan, hres, hsort]
    simp
  have hfind : findSimilar ⟨[⟨0, "a", some [3, 4], [], none, "", 0⟩,
      ⟨1, "b", some [4, 3], [], none, "", 0⟩], 2, 0, 2⟩ [(3 : ℝ), 4] (9 / 10) =
      .ok (some ⟨0, "a", some [3, 4], [], none, "", 0⟩) := by
    simp only [findSimilar, hsearch]
    rfl
  have hstore := store_eq_update hfind "c" [] none "" 9
  exact store_dedup_best_match hstore rfl

/-! ## C6: dedup idempotence -/

lemma sortByScore_singleton (x : SearchResult) : sortByScore [x] = [x] := by
  simp [sortByScore, insertByScore]

lemma readEntry_id (r : MemoryEntry) : (readEntry r).id = r.id := rfl

/-- Inverting a dedup miss: no persisted record reaches the threshold
(equivalently, the scan keeps no row), and every decodable embedding has
the query's length. -/
lemma findSimilar_none_inv {db : MemoryDB} {e : List ℝ} {t : ℝ}
    (h : findSimilar db e t = .ok none) :
    db.records.filterMap (toResult e t) = [] ∧
    (∀ r ∈ db.records, ∀ e', r.embedding = some e' → e'.length = e.length) := by
  rw [findSimilar] at h
  cases hv : vectorSearch db e 1 t with
  | error er => rw [hv] at h; simp at h
  | ok p =>
    obtain ⟨results, warns⟩ := p
    rw [hv] at h
    simp only [Except.ok.injEq] at h
    have hres_nil : results = [] := by
      cases results with
      | nil => rfl
      | cons a l => simp at h
    obtain ⟨hscan, hres, -⟩ := vectorSearch_ok_inv hv
    subst hres_nil
    have hsort_nil : sortByScore (db.records.filterMap (toResult e t)) = [] := by
      cases hs : sortByScore (db.records.filterMap (toResult e t)) with
      | nil => rfl
      | cons a l => rw [hs] at hres; simp at hres
    have hfm : db.records.filterMap (toResult e t) = [] :=
      List.Perm.eq_nil ((hsort_nil ▸ sortByScore_perm _).symm)
    exact ⟨hfm, scanRows_len_of_ok hscan⟩

/-- C6.  Storing content with a self-similar embedding twice (threshold
at most `1`), where the first call inserted a brand-new record, makes the
second call report a duplicate carrying the first call's id, update that
record in place (no id appears or disappears), and leave exactly one
record with that content — provided ids are fresh and no pre-existing
record already carried the content. -/
theorem store_dedup_idempotent
    {db : MemoryDB} {c : String} {e : List ℝ} {tags tags' : List String}
    {cat cat' : Option String} {src src' : String} {t : ℝ} {now now' : Nat}
    {res₁ : StoreResult} {db₁ : MemoryDB}
    (hself : rawScore e e = 1) (ht : t ≤ 1)
    (h₁ : store db c e tags cat src t now = .ok (res₁, db₁))
    (hnew : res₁.isDuplicate = false)
    (hfresh : ∀ r ∈ db.records, r.content ≠ c)
    (hid : ∀ r ∈ db.records, r.id ≠ db.nextId) :
    ∃ res₂ db₂, store db₁ c e tags' cat' src' t now' = .ok (res₂, db₂) ∧
      res₂.isDuplicate = true ∧
      res₂.updatedId = some res₁.entry.id ∧
      db₂.records.map (·.id) = db₁.records.map (·.id) ∧
      (db₂.records.filter fun r => r.content = c).length = 1 := by
  cases hf₁ : findSimilar db e t with
  | error er => rw [store_eq_err hf₁ c tags cat src now] at h₁; simp at h₁
  | ok fo =>
    cases fo with
    | some ex =>
      rw [store_eq_update hf₁ c tags cat src now] at h₁
      simp only [Except.ok.injEq, Prod.mk.injEq] at h₁
      rw [← h₁.1] at hnew
      simp at hnew
    | none =>
      rw [store_eq_insert hf₁ c tags cat src now] at h₁
      simp only [Except.ok.injEq, Prod.mk.injEq] at h₁
      obtain ⟨hres₁, hdb₁⟩ := h₁
      obtain ⟨hfm_old, hlen_old⟩ := findSimilar_none_inv hf₁
      subst hdb₁
      -- the freshly inserted row
      set row : MemoryEntry :=
        ⟨db.nextId, c, some e, tags, categoryOrNull cat, src, now⟩ with hrow
      -- the second dedup search finds exactly the fresh row
      have hlen₁ : ∀ r ∈ db.records ++ [row], ∀ e', r.embedding = some e' →
          e'.length = e.length := by
        intro r hr e' he'
        rcases List.mem_append.1 hr with hr | hr
        · exact hlen_old r hr e' he'
        · simp only [List.mem_singleton] at hr
          subst hr
          simp only [hrow] at he'
          cases he'
          rfl
      have hscan₁ := scanRows_ok_of_len e t (db.records ++ [row]) hlen₁
      have hfm₁ : (db.records ++ [row]).filterMap (toResult e t) =
          [⟨readEntry row, 1⟩] := by
        rw [List.filterMap_append, hfm_old]
        simp only [List.nil_append, List.filterMap_cons, List.filterMap_nil, toResult, hrow]
        rw [hself, if_pos ht]
      have hv₁ : vectorSearch ⟨db.records ++ [row], db.dimension, db.captureCount,
          db.nextId + 1⟩ e 1 t =
          .ok ([⟨readEntry row, 1⟩],
               ((db.records ++ [row]).filter fun r => r.embedding.isNone).map (·.id)) := by
        simp only [vectorSearch, hscan₁, hfm₁, sortByScore_singleton, List.take_succ_cons,
          List.take_zero]
      have hfind₁ : findSimilar ⟨db.records ++ [row], db.dimension, db.captureCount,
          db.nextId + 1⟩ e t = .ok (some (readEntry row)) := by
        simp only [findSimilar, hv₁, List.head?]
        rfl
      refine ⟨_, _, store_eq_update hfind₁ c tags' cat' src' now', rfl, ?_, ?_, ?_⟩
      · rw [readEntry_id, ← hres₁]
      · simp only [List.map_map]
        refine List.map_congr_left ?_
        intro r hr
        rcases List.mem_append.1 hr with hr | hr
        · have hne : r.id ≠ (readEntry row).id := by
            rw [readEntry_id]
            exact hid r hr
          simp only [Function.comp_apply, if_neg hne]
        · simp only [List.mem_singleton] at hr
          subst hr
          simp [readEntry_id, hrow]
      · have hmap : (db.records ++ [row]).map (fun r =>
            if r.id = (readEntry row).id
            then (⟨(readEntry row).id, c, some e, tags', categoryOrNull cat', src', now'⟩ :
              MemoryEntry)
            else r) =
            db.records ++ [⟨db.nextId, c, some e, tags', categoryOrNull cat', src', now'⟩] := by
          rw [List.map_append]
          congr 1
          · refine (List.map_congr_left ?_).trans (List.map_id _)
            intro r hr
            rw [if_neg (by rw [readEntry_id]; exact hid r hr)]
            rfl
          · simp [readEntry_id, hrow]
        simp only [hmap]
        rw [List.filter_append]
        have h1 : db.records.filter (fun r => r.content = c) = [] := by
          rw [List.filter_eq_nil_iff]
          intro r hr
          simp only [decide_eq_true_eq]
          exact hfresh r hr
        rw [h1]
        simp

/-- Witness for C6: storing `"m"` with embedding `[3,4]` twice into an
initially empty store at threshold `0.95` — the second call updates the
record minted by the first (id 0), keeps its id, and exactly one record
with that content remains. -/
theorem store_dedup_idempotent_witness :
    ∃ res₂ db₂, store ⟨[⟨0, "m", some [3, 4], [], none, "", 1⟩], 2, 0, 1⟩
        "m" [3, 4] [] none "" (19 / 20) 2 = .ok (res₂, db₂) ∧
      res₂.isDuplicate = true ∧
      res₂.updatedId = some 0 ∧
      db₂.records.map (·.id) =
        ([⟨0, "m", some [3, 4], [], none, "", 1⟩] : List MemoryEntry).map (·.id) ∧
      (db₂.records.filter fun r => r.content = "m").length = 1 :=
  store_dedup_idempotent
    (rawScore_self [3, 4] (by rw [dot_34]; norm_num))
    (by norm_num)
    (rfl : store ⟨[], 2, 0, 0⟩ "m" [3, 4] [] none "" (19 / 20) 1 =
      .ok (⟨⟨0, "m", some [3, 4], [], none, "", 1⟩, false, none⟩,
           ⟨[⟨0, "m", some [3, 4], [], none, "", 1⟩], 2, 0, 1⟩))
    rfl
    (by simp)
    (by simp)

/-! ## C7: delete-by-similarity -/

lemma matchesB_true_iff {q : List ℝ} {t : ℝ} {r : MemoryEntry} :
    matchesB q t r = true ↔ ∃ e, r.embedding = some e ∧ t ≤ rawScore q e := by
  cases hemb : r.embedding with
  | none => simp [matchesB, hemb]
  | some e => simp [matchesB, hemb]

lemma toResult_isSome_eq_matchesB (q : List ℝ) (t : ℝ) (r : MemoryEntry) :
    (toResult q t r).isSome = matchesB q t r := by
  cases hemb : r.embedding with
  | none => simp [toResult, matchesB, hemb]
  | some e =>
    by_cases hm : t ≤ rawScore q e
    · simp [toResult, matchesB, hemb, hm]
    · simp [toResult, matchesB, hemb, hm]

/-- The kept hits of the scan are in id-preserving bijection with the
above-threshold rows. -/
lemma filterMap_toResult_ids (q : List ℝ) (t : ℝ) (rows : List MemoryEntry) :
    (rows.filterMap (toResult q t)).map (fun s => s.entry.id) =
      (rows.filter (matchesB q t)).map (·.id) := by
  induction rows with
  | nil => rfl
  | cons r rest ih =>
    cases hemb : r.embedding with
    | none => simp [List.filterMap_cons, List.filter_cons, toResult, matchesB, hemb, ih]
    | some e =>
      by_cases hm : t ≤ rawScore q e
      · simp [List.filterMap_cons, List.filter_cons, toResult, matchesB, hemb, hm, ih,
          readEntry_id]
      · simp [List.filterMap_cons, List.filter_cons, toResult, matchesB, hemb, hm, ih]

lemma filterMap_toResult_length (q : List ℝ) (t : ℝ) (rows : List MemoryEntry) :
    (rows.filterMap (toResult q t)).length = (rows.filter (matchesB q t)).length := by
  have h := congrArg List.length (filterMap_toResult_ids q t rows)
  simpa [List.length_map] using h

/-- The per-match deletion loop of `deleteByQuery` removes exactly the
rows whose id appears among the matches. -/
lemma foldl_delete_records (ms : List SearchResult) (d : MemoryDB) :
    (ms.foldl (fun d m => delete d m.entry.id) d).records =
      d.records.filter fun r => !(ms.any fun m => decide (r.id = m.entry.id)) := by
  induction ms generalizing d with
  | nil => simp
  | cons m rest ih =>
    have hdel : (delete d m.entry.id).records =
        d.records.filter fun r => !(decide (r.id = m.entry.id)) := by
      simp [delete]
    calc ((m :: rest).foldl (fun d m => delete d m.entry.id) d).records
        = (rest.foldl (fun d m => delete d m.entry.id) (delete d m.entry.id)).records := rfl
      _ = (delete d m.entry.id).records.filter
            (fun r => !(rest.any fun m => decide (r.id = m.entry.id))) := ih _
      _ = (d.records.filter fun r => !(decide (r.id = m.entry.id))).filter
            (fun r => !(rest.any fun m => decide (r.id = m.entry.id))) := by rw [hdel]
      _ = d.records.filter fun r => !((m :: rest).any fun m => decide (r.id = m.entry.id)) := by
          rw [List.filter_filter]
          refine List.filter_congr ?_
          intro r hr
          simp [Bool.not_or, Bool.and_comm]

/-- C7.  `deleteByQuery` deletes exactly the persisted records whose
similarity score against the query reaches the threshold, returns their
count, and leaves every below-threshold (or undecodable) record in
place — provided the above-threshold records number at most the
hard-coded cap of 100 and ids are unique (I2). -/
theorem deleteByQuery_exact {db : MemoryDB} {q : List ℝ} {t : ℝ} {n : Nat} {db' : MemoryDB}
    (hnodup : (db.records.map (·.id)).Nodup)
    (h : deleteByQuery db q t = .ok (n, db'))
    (hcap : (db.records.filter (matchesB q t)).length ≤ 100) :
    n = (db.records.filter (matchesB q t)).length ∧
    db'.records = db.records.filter fun r => !(matchesB q t r) := by
  rw [deleteByQuery] at h
  cases hv : vectorSearch db q 100 t with
  | error er => rw [hv] at h; simp at h
  | ok p =>
    obtain ⟨hits, warns⟩ := p
    rw [hv] at h
    simp only [Except.ok.injEq, Prod.mk.injEq] at h
    obtain ⟨hn, hdb'⟩ := h
    obtain ⟨hscan, hres, -⟩ := vectorSearch_ok_inv hv
    have hlen_fm : (db.records.filterMap (toResult q t)).length =
        (db.records.filter (matchesB q t)).length :=
      filterMap_toResult_length q t db.records
    have hsortlen : (sortByScore (db.records.filterMap (toResult q t))).length =
        (db.records.filterMap (toResult q t)).length :=
      (sortByScore_perm _).length_eq
    have hhits : hits = sortByScore (db.records.filterMap (toResult q t)) := by
      rw [hres]
      exact List.take_of_length_le (by rw [hsortlen, hlen_fm]; exact hcap)
    have hperm : List.Perm hits (db.records.filterMap (toResult q t)) := by
      rw [hhits]; exact sortByScore_perm _
    constructor
    · rw [← hn, hperm.length_eq, hlen_fm]
    · rw [← hdb', foldl_delete_records]
      refine List.filter_congr ?_
      intro r hr
      congr 1
      by_cases hm : matchesB q t r = true
      · rw [hm]
        obtain ⟨e, hemb, hsc⟩ := matchesB_true_iff.1 hm
        have htr : toResult q t r = some ⟨readEntry r, rawScore q e⟩ := by
          simp [toResult, hemb, hsc]
        have hmem : (⟨readEntry r, rawScore q e⟩ : SearchResult) ∈ hits :=
          hperm.mem_iff.2 (List.mem_filterMap.2 ⟨r, hr, htr⟩)
        refine List.any_eq_true.2 ⟨_, hmem, ?_⟩
        simp [readEntry_id]
      · rw [eq_false_of_ne_true hm]
        by_contra hany
        rw [Bool.not_eq_false] at hany
        obtain ⟨m, hmmem, hmid⟩ := List.any_eq_true.1 hany
        obtain ⟨r', hr', htr'⟩ := List.mem_filterMap.1 (hperm.mem_iff.1 hmmem)
        obtain ⟨hsc', e', hemb', hm'⟩ := toResult_some htr'
        have hid' : r.id = r'.id := by
          rw [of_decide_eq_true hmid, hm']
          rfl
        have : r = r' := List.inj_on_of_nodup_map hnodup hr hr' hid'
        subst this
        have hsc'' : t ≤ rawScore q e' := by rw [hm'] at hsc'; exact hsc'
        exact hm (matchesB_true_iff.2 ⟨e', hemb', hsc''⟩)

lemma rawScore_34_orth : rawScore [(3 : ℝ), 4] [(-4 : ℝ), 3] = 0 := by
  rw [rawScore, show dot [(3 : ℝ), 4] [(3 : ℝ), 4] = 25 from by norm_num [dot],
    show dot [(-4 : ℝ), 3] [(-4 : ℝ), 3] = 25 from by norm_num [dot],
    show dot [(3 : ℝ), 4] [(-4 : ℝ), 3] = 0 from by norm_num [dot], sqrt_twentyfive]
  norm_num

/-- Witness for C7: of two persisted records scoring `1` and `0` against
the query, delete-by-query at threshold `0.8` deletes exactly the
score-`1` record, reports count 1, and leaves the orthogonal record. -/
theorem deleteByQuery_exact_witness :
    1 = (([⟨0, "a", some [3, 4], [], none, "", 0⟩,
           ⟨1, "b", some [-4, 3], [], none, "", 0⟩] : List MemoryEntry).filter
          (matchesB [3, 4] (4 / 5))).length ∧
    ([⟨1, "b", some [-4, 3], [], none, "", 0⟩] : List MemoryEntry) =
      ([⟨0, "a", some [3, 4], [], none, "", 0⟩,
        ⟨1, "b", some [-4, 3], [], none, "", 0⟩] : List MemoryEntry).filter
        fun r => !(matchesB [3, 4] (4 / 5) r) := by
  have hco : rawScore [(3 : ℝ), 4] [(3 : ℝ), 4] = 1 :=
    rawScore_self _ (by rw [dot_34]; norm_num)
  have hscan := scanRows_ok_of_len [(3 : ℝ), 4] (4 / 5)
    [⟨0, "a", some [3, 4], [], none, "", 0⟩, ⟨1, "b", some [-4, 3], [], none, "", 0⟩]
    (by
      intro r hr e he
      simp only [List.mem_cons, List.not_mem_nil, or_false] at hr
      rcases hr with rfl | rfl <;> (simp at he; subst he; rfl))
  have hfm : List.filterMap (toResult [(3 : ℝ), 4] (4 / 5))
      [⟨0, "a", some [3, 4], [], none, "", 0⟩, ⟨1, "b", some [-4, 3], [], none, "", 0⟩] =
      [⟨⟨0, "a", some [3, 4], [], none, "", 0⟩, 1⟩] := by
    simp only [List.filterMap_cons, List.filterMap_nil, toResult, hco, rawScore_34_orth]
    rw [if_pos (by norm_num : (4 / 5 : ℝ) ≤ 1), if_neg (by norm_num : ¬ (4 / 5 : ℝ) ≤ 0)]
    simp [readEntry, categoryOrNull]
  have hv : vectorSearch ⟨[⟨0, "a", some [3, 4], [], none, "", 0⟩,
      ⟨1, "b", some [-4, 3], [], none, "", 0⟩], 2, 0, 2⟩ [(3 : ℝ), 4] 100 (4 / 5) =
      .ok ([⟨⟨0, "a", some [3, 4], [], none, "", 0⟩, 1⟩], []) := by
    simp only [vectorSearch, hscan, hfm, sortByScore_singleton]
    simp
  have h : deleteByQuery ⟨[⟨0, "a", some [3, 4], [], none, "", 0⟩,
      ⟨1, "b", some [-4, 3], [], none, "", 0⟩], 2, 0, 2⟩ [(3 : ℝ), 4] (4 / 5) =
      .ok (1, ⟨[⟨1, "b", some [-4, 3], [], none, "", 0⟩], 2, 0, 2⟩) := by
    rw [deleteByQuery, hv]
    simp [delete, List.filter]
  have hnodup : (([⟨0, "a", some [3, 4], [], none, "", 0⟩,
      ⟨1, "b", some [-4, 3], [], none, "", 0⟩] : List MemoryEntry).map (·.id)).Nodup := by
    simp
  have hcap : (([⟨0, "a", some [3, 4], [], none, "", 0⟩,
      ⟨1, "b", some [-4, 3], [], none, "", 0⟩] : List MemoryEntry).filter
      (matchesB [3, 4] (4 / 5))).length ≤ 100 :=
    le_trans (List.length_filter_le _ _) (by norm_num)
  exact deleteByQuery_exact hnodup h hcap

end SuperLocalMemory
